import Mathlib

/-!
Verification development for `scripts/analyze.py` (autoflow — permission flow
optimizer).  The Python source is shallowly embedded below: every pure function
of the script becomes a Lean definition over `String`, `List`, `Nat`, `Int` and
`ℚ`.  Conventions used throughout:

* Python strings are Lean `String`s; the string helpers of the Python standard
  library that the script calls (`str.split`, `str.strip`, `str.lower`,
  `str.startswith`, `in`, `fnmatch.fnmatch`, …) are re-implemented here over
  `List Char` by structural recursion so that every definition kernel-evaluates
  on concrete inputs.  Unicode-specific behaviour of `str.lower` outside ASCII
  is not modelled (all data handled by the script is ASCII).
* Python floats are modelled exactly with `ℚ`; `round(x, 1)` becomes
  round-half-to-even at one decimal digit, which agrees with Python on the
  decimally-representable values the script produces.
* Timestamps: the script stores ISO 8601 strings and turns them into
  `datetime` objects with `_parse_ts`, which yields `None` on a parse failure;
  an invocation here carries the already-parsed result as `Option ℚ` (seconds
  on a global axis), `none` standing for an unparseable timestamp.
* Python dicts preserve insertion order; they are modelled as association
  lists with in-place update and append-if-missing, preserving that order.
* `list.sort` / `sorted` are stable; they are modelled with
  `List.insertionSort`, which is stable for the same comparison, hence
  extensionally equal to the timsort the interpreter runs.
* File-system and CLI concerns (`find_transcripts`, `parse_transcript`,
  `load_settings`, JSON writing, `argparse`) are external collaborators per the
  design document; the analysis core below starts from the in-memory list of
  invocation tuples they produce.
-/

/-- ASCII whitespace recognised by Python `str.split()` / `str.strip()`. -/
def isPySpace (c : Char) : Bool :=
  c = ' ' || c = '\t' || c = '\n' || c = '\r' || c = '\x0b' || c = '\x0c'

/-- Python `str.strip()`. -/
def pyStrip (s : String) : String :=
  String.mk (((s.toList.dropWhile isPySpace).reverse.dropWhile isPySpace).reverse)

/-- Python `str.lower()` (ASCII). -/
def pyLower (s : String) : String :=
  String.mk (s.toList.map Char.toLower)

/-- Python `needle in hay` on strings: `sub` occurs somewhere in `l`. -/
def subOccurs (sub : List Char) : List Char → Bool
  | [] => sub.isEmpty
  | c :: rest => sub.isPrefixOf (c :: rest) || subOccurs sub rest

/-- Python `sub in s` (substring containment). -/
def pyIn (sub s : String) : Bool :=
  subOccurs sub.toList s.toList

/-- Python `s.startswith(p)`. -/
def startsWithB (s p : String) : Bool :=
  p.toList.isPrefixOf s.toList

/-- Python `s.endswith(p)`. -/
def endsWithB (s p : String) : Bool :=
  p.toList.reverse.isPrefixOf s.toList.reverse

/-- Python `s[n:]` (character slicing; the script only slices ASCII). -/
def strDrop (s : String) (n : Nat) : String :=
  String.mk (s.toList.drop n)

/-- Python `s[:-n]` for positive `n`, as used by the script. -/
def strDropRight (s : String) (n : Nat) : String :=
  String.mk (s.toList.take (s.toList.length - n))

/-- Worker for `pySplit`: accumulates the current word reversed. -/
def splitWsAux (cur : List Char) : List Char → List String
  | [] => if cur.isEmpty then [] else [String.mk cur.reverse]
  | c :: rest =>
    if isPySpace c then
      if cur.isEmpty then splitWsAux [] rest
      else String.mk cur.reverse :: splitWsAux [] rest
    else splitWsAux (c :: cur) rest

/-- Python `str.split()` with no argument: split on whitespace runs, dropping
empty pieces.  Note `s.strip().split() = s.split()`, and `s.strip()` is falsy
exactly when this list is empty; the embedding below relies on both facts. -/
def pySplit (s : String) : List String :=
  splitWsAux [] s.toList

/-- Python `" ".join(parts)`. -/
def joinSp : List String → String
  | [] => ""
  | [s] => s
  | s :: rest => s ++ " " ++ joinSp rest

/-!  `fnmatch.fnmatch` (POSIX: `os.path.normcase` is the identity).  The glob
pattern is first parsed into tokens (`*`, `?`, `[...]` classes, literals) and
then matched against the subject.  Both phases use an explicit fuel argument
equal to an upper bound on the work, so that they are structurally recursive
and kernel-evaluable; the fuel provably never runs out for the bounds passed
by the wrappers. -/

/-- One parsed glob token. -/
inductive GlobTok where
  | lit : Char → GlobTok
  | anyOne : GlobTok
  | star : GlobTok
  | cls : Bool → List Char → GlobTok
deriving DecidableEq

/-- Scan a character-class body for its closing `]`.  A `]` in first position
is literal content, per `fnmatch.translate`.  Returns the class content and
the remaining pattern, or `none` when the class is unterminated. -/
def classSplit (first : Bool) : List Char → Option (List Char × List Char)
  | [] => none
  | c :: rest =>
    if c = ']' && !first then some ([], rest)
    else
      match classSplit false rest with
      | some (content, rem) => some (c :: content, rem)
      | none => none

/-- Membership of a character in a class body, with `a-b` ranges; a `-` in
first or last position is literal, as in `fnmatch.translate`. -/
def inClass (c : Char) : List Char → Bool
  | a :: '-' :: b :: rest =>
    if rest.isEmpty && b = ']' then
      (c = a || c = '-' || c = b)
    else
      (a ≤ c && c ≤ b) || inClass c rest
  | a :: rest => c = a || inClass c rest
  | [] => false

/-- Length bound for `classSplit`, needed to justify the parser fuel. -/
theorem classSplit_length_lt (first : Bool) (l : List Char)
    {content rem : List Char} (h : classSplit first l = some (content, rem)) :
    rem.length < l.length := by
  induction l generalizing first content rem with
  | nil => simp [classSplit] at h
  | cons c rest ih =>
    by_cases hc : (c = ']' && !first) = true
    · simp [classSplit, hc] at h
      simp [← h.2]
    · simp only [classSplit, hc, if_false, Bool.false_eq_true] at h
      cases hcs : classSplit false rest with
      | none => rw [hcs] at h; cases h
      | some p =>
        rw [hcs] at h
        cases p with
        | mk content2 rem2 =>
          simp at h
          have := ih false hcs
          have h2 : rem = rem2 := by rw [← h.2]
          rw [h2]
          simpa using Nat.lt_succ_of_lt this

/-- Parse a glob pattern into tokens.  `fuel` bounds the recursion; it is
adequate whenever `p.length ≤ fuel`. -/
def parseGlobF : Nat → List Char → List GlobTok
  | 0, _ => []
  | _ + 1, [] => []
  | fuel + 1, '*' :: ps => .star :: parseGlobF fuel ps
  | fuel + 1, '?' :: ps => .anyOne :: parseGlobF fuel ps
  | fuel + 1, '[' :: ps =>
    let neg : Bool := match ps with | '!' :: _ => true | _ => false
    let body : List Char := match ps with | '!' :: r => r | _ => ps
    match classSplit true body with
    | none => .lit '[' :: parseGlobF fuel ps
    | some (content, rest) => .cls neg content :: parseGlobF fuel rest
  | fuel + 1, c :: ps => .lit c :: parseGlobF fuel ps

/-- Match parsed glob tokens against a subject.  `fuel` bounds the recursion;
`toks.length + s.length` strictly decreases at every call, so
`toks.length + s.length + 1` is always adequate. -/
def matchToksF : Nat → List GlobTok → List Char → Bool
  | 0, _, _ => false
  | _ + 1, [], s => s.isEmpty
  | fuel + 1, .star :: ts, [] => matchToksF fuel ts []
  | fuel + 1, .star :: ts, c :: rest =>
    matchToksF fuel ts (c :: rest) || matchToksF fuel (.star :: ts) rest
  | _ + 1, .anyOne :: _, [] => false
  | fuel + 1, .anyOne :: ts, _ :: rest => matchToksF fuel ts rest
  | _ + 1, .lit _ :: _, [] => false
  | fuel + 1, .lit a :: ts, c :: rest => (c = a) && matchToksF fuel ts rest
  | _ + 1, .cls _ _ :: _, [] => false
  | fuel + 1, .cls neg content :: ts, c :: rest =>
    (inClass c content != neg) && matchToksF fuel ts rest

/-- Python `fnmatch.fnmatch(name, pat)` on a POSIX system. -/
def fnmatchB (name pat : String) : Bool :=
  let toks := parseGlobF pat.toList.length pat.toList
  matchToksF (toks.length + name.toList.length + 1) toks name.toList

/-!  Fixed tables from the top of the script. -/

/-- `DESTRUCTIVE_PATTERNS` — commands that stay prompted even if never denied. -/
def DESTRUCTIVE_PATTERNS : List String := [
  "git push", "git push *",
  "git reset --hard", "git reset --hard *",
  "git rebase", "git rebase *",
  "git clean", "git clean *",
  "git branch -D", "git branch -D *",
  "git checkout .", "git restore .",
  "gh pr create", "gh pr create *",
  "gh pr merge", "gh pr merge *",
  "gh pr close", "gh pr close *",
  "gh issue create", "gh issue create *",
  "gh issue close", "gh issue close *",
  "rm", "rm *",
  "rm -rf", "rm -rf *",
  "rmdir", "rmdir *",
  "chmod", "chmod *",
  "chown", "chown *",
  "kill", "kill *",
  "killall", "killall *",
  "sudo", "sudo *",
  "docker rm", "docker rm *",
  "docker rmi", "docker rmi *",
  "kubectl delete", "kubectl delete *"]

/-- `DESTRUCTIVE_KEYWORDS` — keywords that make any command destructive. -/
def DESTRUCTIVE_KEYWORDS : List String :=
  ["--force", "--hard", "delete", "drop", "destroy", "purge", "--no-verify"]

/-- The normalisation `command.lower().strip()` at the top of `is_destructive`. -/
def normCmd (command : String) : String :=
  pyStrip (pyLower command)

/-- `is_destructive(command)`: the Python loops with early `return True` are
rendered as `List.any` over the same tables in the same order. -/
def is_destructive (command : String) : Bool :=
  let cmd_lower := normCmd command
  DESTRUCTIVE_PATTERNS.any (fun pat => fnmatchB cmd_lower pat || cmd_lower = pat)
    || DESTRUCTIVE_KEYWORDS.any (fun kw => pyIn kw cmd_lower)

/-- `_BUILTIN_AUTO_TOOLS`: built-in tools that are always auto-allowed.  The
Python value is a `set`, consumed only through `list(...) +` and membership,
so the enumeration order chosen here is immaterial. -/
def BUILTIN_AUTO_TOOLS : List String :=
  ["Read", "Glob", "Grep", "WebSearch",
   "TaskCreate", "TaskUpdate", "TaskList", "TaskGet",
   "AskUserQuestion", "EnterPlanMode", "ExitPlanMode", "Skill"]

/-!  Tool classification (`classify_tool`). -/

/-- `_READONLY_MCP_PREFIXES`. -/
def READONLY_MCP_HEADS : List String :=
  ["read_", "get_", "list_", "view_", "tabs_context", "tabs_create"]

/-- `_MUTATE_MCP_KEYWORDS`. -/
def MUTATE_MCP_KEYWORDS : List String :=
  ["write", "create", "delete", "merge", "close", "update", "edit", "remove"]

/-- Python `name.split("__")`: split on the two-character separator,
leftmost-first and non-overlapping. -/
def splitUU (cur : List Char) : List Char → List String
  | [] => [String.mk cur.reverse]
  | '_' :: '_' :: rest => String.mk cur.reverse :: splitUU [] rest
  | c :: rest => splitUU (c :: cur) rest

/-- `name.split("__")[-1] if "__" in name else name`; `splitUU` always returns
a non-empty list, so the default is never consulted. -/
def mcpSuffix (name : String) : String :=
  if pyIn "__" name then (splitUU [] name.toList).getLastD name else name

/-- Strip `Bash(` … ` *)` and read off the first two tokens, as done at the
top of the Bash branch of `classify_tool`. -/
def innerOf (pattern : String) : String :=
  let inner := strDrop pattern 5
  let inner := strDropRight inner 1
  if endsWithB inner " *" then strDropRight inner 2 else inner

/-- `classify_tool(pattern)`: categorise a permission pattern. -/
def classify_tool (pattern : String) : String :=
  if !(startsWithB pattern "Bash(") then
    let name := pattern
    if name ∈ ["Grep", "Glob", "Read", "WebSearch", "WebFetch"] then "readonly"
    else if name ∈ ["Write", "Edit", "NotebookEdit"] then "file_write"
    else if name ∈ ["TaskUpdate", "TaskCreate", "TaskList", "TaskGet",
                    "ExitPlanMode", "EnterPlanMode", "AskUserQuestion", "Skill"] then
      "claude_internal"
    else if startsWithB name "mcp__" then
      if endsWithB name "__computer" || endsWithB name "__form_input" then "browser_action"
      else
        let suffix := mcpSuffix name
        if READONLY_MCP_HEADS.any (fun p => startsWithB suffix p) then "readonly"
        else if MUTATE_MCP_KEYWORDS.any (fun kw => pyIn kw suffix) then "external_mutate"
        else "readonly"
    else "unknown"
  else
    let parts := pySplit (innerOf pattern)
    match parts with
    | [] => "unknown"
    | cmd :: restParts =>
      let sub := restParts.headD ""
      if cmd ∈ ["ls", "find", "wc", "which", "pwd", "cat", "head", "tail",
                "file", "stat", "du", "df", "echo", "date", "uname", "env",
                "printenv", "id", "whoami", "hostname"] then "readonly"
      else if cmd = "git" then
        if sub ∈ ["log", "status", "diff", "show", "branch", "tag", "remote",
                  "describe", "rev-parse", "ls-files", "ls-tree", "shortlog",
                  "blame", "reflog", "stash list"] then "git_safe"
        else if sub ∈ ["add", "commit", "checkout", "stash", "switch", "merge",
                       "cherry-pick", "revert", "tag -a", "branch -d"] then "git_local_mutate"
        else if sub ∈ ["push", "rebase", "reset", "fetch", "pull", "clean"] then
          "git_remote_mutate"
        else "git_safe"
      else if cmd ∈ ["python3", "python", "node", "npm", "npx", "yarn", "pnpm",
                     "uv", "cargo", "pytest", "jest", "vitest", "make", "go",
                     "rustc", "tsc", "bun", "deno"] then "run_code"
      else if cmd ∈ ["gcloud", "terraform", "tofu", "aws", "kubectl", "helm",
                     "docker", "docker-compose", "pulumi", "az", "flyctl"] then "infra"
      else if cmd = "gh" then "external_mutate"
      else "unknown"

/-!  Pattern extraction (`extract_patterns`). -/

/-- `_CLI_VERBS`: recognised CLI verbs for the level `-1` wildcard-gap form. -/
def CLI_VERBS : List String :=
  ["list", "describe", "view", "read", "check", "diff", "show", "status",
   "log", "format", "inspect", "info", "get", "search", "find", "cat",
   "ls", "tree", "history", "blame", "watch", "tail", "top",
   "create", "delete", "update", "deploy", "execute", "apply", "remove",
   "destroy", "set", "add", "push", "pull", "run", "start", "stop",
   "restart", "build", "submit", "merge", "close", "edit", "write",
   "install", "uninstall", "upgrade", "rollback", "scale", "attach"]

/-- The loop's break condition: flag, path, or shell control operator token. -/
def stopToken (t : String) : Bool :=
  startsWithB t "-" || startsWithB t "/" || startsWithB t "." ||
    t = "&&" || t = "||" || t = ";" || t = "|"

/-- Wrap an inner command text as a prefix pattern. -/
def mkBashPat (inner : String) : String :=
  "Bash(" ++ inner ++ " *)"

/-- The `for i, token in enumerate(parts[1:], start=1)` walk of
`extract_patterns`: extends the accumulated prefix token by token, emitting
one pattern per step, and stops at the first `stopToken`.  Returns the emitted
`(level, pattern)` pairs together with the final `prefix_parts`. -/
def walk : List String → Int → List String → List (Int × String) × List String
  | [], _, acc => ([], acc)
  | t :: ts, i, acc =>
    if stopToken t then ([], acc)
    else
      let acc2 := acc ++ [t]
      let rec2 := walk ts (i + 1) acc2
      ((i, mkBashPat (joinSp acc2)) :: rec2.1, rec2.2)

/-- The optional extra verb pattern of `extract_patterns`: emitted at level
`-1` when the prefix reached at least 3 tokens, its final token is a
recognised CLI verb, and the identical pattern string was not already
emitted.  (In the script this appends to `patterns` in place; here the
appended tail is computed separately and concatenated — `xs ++ []` for the
no-emission branches.) -/
def verbTail (base : String) (prefix_parts : List String)
    (snds : List String) : List (Int × String) :=
  if 3 ≤ prefix_parts.length
      && CLI_VERBS.contains (pyLower (prefix_parts.getLastD "")) then
    if snds.contains ("Bash(" ++ base ++ " * " ++ prefix_parts.getLastD "" ++ " *)") then []
    else [((-1 : Int), "Bash(" ++ base ++ " * " ++ prefix_parts.getLastD "" ++ " *)")]
  else []

/-- `extract_patterns(tool_name, command)`. -/
def extract_patterns (tool_name command : String) : List (Int × String) :=
  if tool_name ≠ "Bash" then [((0 : Int), tool_name)]
  else
    match pySplit command with
    | [] => [((0 : Int), "Bash")]
    | base :: rest =>
      let walked := walk rest 1 [base]
      let patterns := ((0 : Int), mkBashPat base) :: walked.1
      patterns ++ verbTail base walked.2 (patterns.map Prod.snd)

/-!  Settings interaction: the pure core of `is_pattern_allowed` and
`apply_pattern`.  Reading and writing `settings.json` is collaborator I/O;
the state the apply operation transforms is the `permissions.allow` rule
list, embedded here directly. -/

/-- `pattern_to_settings_format(pattern)` — the identity. -/
def pattern_to_settings_format (pattern : String) : String :=
  pattern

/-- `is_pattern_allowed(pattern, allow_list)`: verbatim equality with an
entry, or the entry (as a glob) matching the pattern. -/
def is_pattern_allowed (pattern : String) (allow_list : List String) : Bool :=
  let settings_pat := pattern_to_settings_format pattern
  allow_list.any (fun allowed => allowed = settings_pat || fnmatchB settings_pat allowed)

/-- The rule-list transformation performed by `apply_pattern`: append the rule
only when it is not already present.  (Reading the document, creating missing
`permissions`/`allow` keys, and serialising back to disk are collaborator
concerns around this core step.) -/
def apply_rule (allow : List String) (pattern : String) : List String :=
  let settings_pat := pattern_to_settings_format pattern
  if settings_pat ∈ allow then allow else allow ++ [settings_pat]

/-- The effective allow list used throughout `analyze`:
`allow_list + list(_BUILTIN_AUTO_TOOLS)`. -/
def effectiveAllow (allow_list : List String) : List String :=
  allow_list ++ BUILTIN_AUTO_TOOLS

/-!  Data model for the analysis core. -/

/-- One invocation tuple `(tool_name, command, outcome, timestamp)` as produced
by the transcript reader.  `outcome` is `"approved"` or `"denied"`; `ts` is
the already-parsed timestamp (`_parse_ts` result), `none` when the ISO string
failed to parse. -/
structure Invocation where
  tool_name : String
  command : String
  outcome : String
  ts : Option ℚ
deriving DecidableEq

/-- Per-pattern aggregated counters, plus the annotations added by the
marking and risk-classification passes of `analyze`. -/
structure PatStats where
  approved : Nat
  denied : Nat
  level : Int
  destructive : Bool
  already_allowed : Bool
  risk : String
deriving DecidableEq

/-- One recommendation record. -/
structure Recommendation where
  pattern : String
  approved : Nat
  denied : Nat
  risk : String
  flow_impact : ℚ
  level : Int
  category : String
  chained_count : Nat
deriving DecidableEq

/-- One enriched per-pattern entry of the review groups. -/
structure GroupEntry where
  pattern : String
  approved : Nat
  denied : Nat
  level : Int
  destructive : Bool
  already_allowed : Bool
  risk : String
  examples : List String
  chained_count : Nat
deriving DecidableEq

/-!  Numeric helpers `_median` and `round(x, 1)`. -/

/-- Round to the nearest integer, ties to even — Python `round` on exact
values. -/
def roundHalfEvenZ (q : ℚ) : Int :=
  let f : Int := Int.floor q
  let r := q - f
  if r < 1 / 2 then f
  else if 1 / 2 < r then f + 1
  else if f % 2 = 0 then f else f + 1

/-- Python `round(x, 1)`. -/
def roundTo1 (q : ℚ) : ℚ :=
  (roundHalfEvenZ (q * 10) : ℚ) / 10

/-- `_median(values)`: 0 for an empty list, middle element of the sorted list
for odd length, mean of the two central elements for even length. -/
def median (values : List ℚ) : ℚ :=
  if values.isEmpty then 0
  else
    let s := values.insertionSort (· ≤ ·)
    let n := s.length
    if n % 2 = 1 then s.getD (n / 2) 0
    else (s.getD (n / 2 - 1) 0 + s.getD (n / 2) 0) / 2

/-!  Timing / windowing analyzer (`compute_prompt_intervals`). -/

/-- Whether some extracted pattern of the call is covered by the allow list
under evaluation (the complement of "prompted"). -/
def anyAllowed (allow_list : List String) (c : Invocation) : Bool :=
  (extract_patterns c.tool_name c.command).any
    (fun lp => is_pattern_allowed lp.2 allow_list)

/-- Timestamp/prompted pairs of the calls with a parseable timestamp
(`timed_calls` before sorting). -/
def timedCalls (all_calls : List Invocation) (allow_list : List String) :
    List (ℚ × Bool) :=
  all_calls.filterMap (fun c =>
    match c.ts with
    | none => none
    | some t => some (t, !anyAllowed allow_list c))

/-- Partition the chronologically sorted calls into active windows: a new
window starts whenever the gap to the previous call exceeds the threshold. -/
def windowsFrom (thresh : ℚ) (x : ℚ × Bool) :
    List (ℚ × Bool) → List (List (ℚ × Bool))
  | [] => [[x]]
  | y :: rest =>
    let ws := windowsFrom thresh y rest
    if y.1 - x.1 > thresh then [x] :: ws
    else
      match ws with
      | [] => [[x, y]]
      | w :: tail => (x :: w) :: tail

/-- Consecutive inter-arrival gaps of the prompted calls within one window. -/
def promptGaps (w : List (ℚ × Bool)) : List ℚ :=
  let ts := (w.filter (fun tp => tp.2)).map Prod.fst
  (ts.zip ts.tail).map (fun ab => ab.2 - ab.1)

/-- `compute_prompt_intervals(all_calls, allow_list)` with the 5-minute
(300 s) AFK threshold. -/
def compute_prompt_intervals (all_calls : List Invocation)
    (allow_list : List String) : List ℚ :=
  let timed := timedCalls all_calls allow_list
  let sorted := timed.insertionSort (fun a b => a.1 ≤ b.1)
  match sorted with
  | [] => []
  | first :: rest => ((windowsFrom 300 first rest).map promptGaps).flatten

/-!  Stats aggregation, marking, risk classification. -/

/-- Apply one outcome to a pattern's counters. -/
def bumpStats (outcome : String) (s : PatStats) : PatStats :=
  if outcome = "approved" then { s with approved := s.approved + 1 }
  else if outcome = "denied" then { s with denied := s.denied + 1 }
  else s

/-- The body of the counting loop: create the entry on first sight (with the
level seen first), then bump the counter for this outcome.  Insertion order
of the association list mirrors Python dict insertion order. -/
def insertCount : List (String × PatStats) → String → Int → String →
    List (String × PatStats)
  | [], pat, lvl, outcome =>
    [(pat, bumpStats outcome
      { approved := 0, denied := 0, level := lvl,
        destructive := false, already_allowed := false, risk := "" })]
  | (k, v) :: rest, pat, lvl, outcome =>
    if k = pat then (k, bumpStats outcome v) :: rest
    else (k, v) :: insertCount rest pat lvl outcome

/-- `pattern_counts` after the first pass of `analyze`. -/
def countPatterns (all_calls : List Invocation) : List (String × PatStats) :=
  all_calls.foldl
    (fun m c =>
      (extract_patterns c.tool_name c.command).foldl
        (fun m2 lp => insertCount m2 lp.2 lp.1 c.outcome) m)
    []

/-- Record one raw command example for a pattern, capped at 5 per pattern. -/
def addExample : List (String × List String) → String → String →
    List (String × List String)
  | [], pat, cmd => [(pat, [cmd])]
  | (k, v) :: rest, pat, cmd =>
    if k = pat then (k, if v.length < 5 then v ++ [cmd] else v) :: rest
    else (k, v) :: addExample rest pat cmd

/-- `pattern_examples` (up to 5 raw command examples per pattern). -/
def buildExamples (all_calls : List Invocation) : List (String × List String) :=
  all_calls.foldl
    (fun m c =>
      (extract_patterns c.tool_name c.command).foldl
        (fun m2 lp => addExample m2 lp.2 c.command) m)
    []

/-- A match of the chain-operator regex `\s*(?:&&|\|\||;)\s*` exists in a
command exactly when the command contains `&&`, `||` or `;`. -/
def hasChainOp (command : String) : Bool :=
  pyIn "&&" command || pyIn "||" command || pyIn ";" command

/-- Increment a per-pattern counter in an association list. -/
def bumpCount : List (String × Nat) → String → List (String × Nat)
  | [], pat => [(pat, 1)]
  | (k, v) :: rest, pat =>
    if k = pat then (k, v + 1) :: rest
    else (k, v) :: bumpCount rest pat

/-- `pattern_chain_counts`: how often a pattern's call contained a shell
chaining operator. -/
def buildChains (all_calls : List Invocation) : List (String × Nat) :=
  all_calls.foldl
    (fun m c =>
      if c.tool_name = "Bash" && hasChainOp c.command then
        (extract_patterns c.tool_name c.command).foldl
          (fun m2 lp => bumpCount m2 lp.2) m
      else m)
    []

/-- The destructive/already-allowed marking pass over `pattern_counts`. -/
def markOne (eff : List String) (pattern : String) (s : PatStats) : PatStats :=
  let destructive :=
    if startsWithB pattern "Bash(" && endsWithB pattern ")" then
      is_destructive (innerOf pattern)
    else false
  { s with destructive := destructive,
           already_allowed := is_pattern_allowed pattern eff }

/-- The risk-classification pass: any denial ⇒ high; else destructive or
fewer than 5 approvals ⇒ medium; else low. -/
def riskOne (s : PatStats) : PatStats :=
  { s with risk :=
      if s.denied > 0 then "high"
      else if s.destructive || s.approved < 5 then "medium"
      else "low" }

/-- `pattern_counts` after both annotation passes of `analyze`. -/
def patternStats (all_calls : List Invocation) (eff : List String) :
    List (String × PatStats) :=
  ((countPatterns all_calls).map (fun kv => (kv.1, markOne eff kv.1 kv.2))).map
    (fun kv => (kv.1, riskOne kv.2))

/-!  Filter engine. -/

/-- Normalise the include prefix to a glob, `None` when the filter is
inactive (Python: `if include:` — absent or empty is inactive). -/
def includeGlobOpt (includeF : Option String) : Option String :=
  match includeF with
  | none => none
  | some inc =>
    if inc = "" then none
    else
      let g := if pyIn "*" inc then inc else inc ++ "*"
      some (if endsWithB g "*" then g else g ++ "*")

/-- `_pattern_matches_include`. -/
def patternMatchesInclude (includeF : Option String) (pattern : String) : Bool :=
  match includeGlobOpt includeF with
  | none => true
  | some g =>
    if !(startsWithB pattern "Bash(") then false
    else fnmatchB (innerOf pattern) g

/-- `_command_matches_include`. -/
def commandMatchesInclude (includeF : Option String) (command : String) : Bool :=
  match includeGlobOpt includeF with
  | none => true
  | some g => fnmatchB command g

/-- `_pattern_matches_expr`: the expression filter matches a pattern when any
recorded example command for it matches.  The regular-expression semantics of
`_command_matches_expr` (with its substring fallback) is abstracted as the
function `exprP`; `none` means the filter is inactive. -/
def patternMatchesExpr (exprP : Option (String → Bool))
    (examples : List (String × List String)) (pattern : String) : Bool :=
  match exprP with
  | none => true
  | some f => ((examples.lookup pattern).getD []).any f

/-- `_pattern_matches_filters`. -/
def patternMatchesFilters (includeF : Option String)
    (exprP : Option (String → Bool)) (examples : List (String × List String))
    (pattern : String) : Bool :=
  patternMatchesInclude includeF pattern && patternMatchesExpr exprP examples pattern

/-!  Grouper. -/

/-- The group key of a pattern, with the two-token special case for the named
CLIs (including its redundantly repeated level check, preserved as written).
A `Bash(...)` pattern reaching this point always has a non-empty inner text;
for an empty inner text Python would raise, and the total embedding returns
the pattern itself. -/
def groupKey (pattern : String) (s : PatStats) : String :=
  if startsWithB pattern "Bash(" then
    let inner := strDropRight (strDrop pattern 5) 1
    let top_cmd := if inner ≠ "" then (pySplit inner).headD pattern else pattern
    let parts := pySplit inner
    match parts with
    | p0 :: p1 :: _ =>
      if p0 ∈ ["gh", "docker", "kubectl", "npm", "cargo"] then
        let two := if s.level = 1 then p0 ++ " " ++ p1 else p0
        if s.level = 0 then p0 else two
      else top_cmd
    | _ => top_cmd
  else pattern

/-- The enriched entry stored in a group. -/
def groupEntryOf (examples : List (String × List String))
    (chains : List (String × Nat)) (pattern : String) (s : PatStats) :
    GroupEntry :=
  { pattern := pattern, approved := s.approved, denied := s.denied,
    level := s.level, destructive := s.destructive,
    already_allowed := s.already_allowed, risk := s.risk,
    examples := (examples.lookup pattern).getD [],
    chained_count := (chains.lookup pattern).getD 0 }

/-- Append an entry to the group at `key`, creating the group on first touch
(defaultdict insertion order). -/
def appendGroup : List (String × List GroupEntry) → String → GroupEntry →
    List (String × List GroupEntry)
  | [], key, e => [(key, [e])]
  | (k, v) :: rest, key, e =>
    if k = key then (k, v ++ [e]) :: rest
    else (k, v) :: appendGroup rest key e

/-- The `groups` map: every pattern passing the filters, bucketed by its
group key. -/
def buildGroups (stats : List (String × PatStats)) (includeF : Option String)
    (exprP : Option (String → Bool)) (examples : List (String × List String))
    (chains : List (String × Nat)) : List (String × List GroupEntry) :=
  stats.foldl
    (fun g kv =>
      if !(patternMatchesFilters includeF exprP examples kv.1) then g
      else appendGroup g (groupKey kv.1 kv.2) (groupEntryOf examples chains kv.1 kv.2))
    []

/-- Total approved+denied volume of one group, the sort key of the result's
group map. -/
def groupVolume (g : String × List GroupEntry) : Nat :=
  (g.2.map (fun e => e.approved + e.denied)).sum

/-!  Counters and recommendation ranker. -/

/-- The `auto_count` / `prompted_count` / `denied_count` loop: a call any of
whose patterns is covered by the effective allow list counts as auto-allowed
(regardless of its recorded outcome); otherwise it is prompted, and denied
when its outcome was a denial. -/
def tallyStep (eff : List String) (acc : Nat × Nat × Nat) (c : Invocation) :
    Nat × Nat × Nat :=
  if anyAllowed eff c then (acc.1 + 1, acc.2.1, acc.2.2)
  else if c.outcome = "denied" then (acc.1, acc.2.1 + 1, acc.2.2 + 1)
  else (acc.1, acc.2.1 + 1, acc.2.2)

/-- `(auto_count, prompted_count, denied_count)` over all calls. -/
def tallies (all_calls : List Invocation) (eff : List String) :
    Nat × Nat × Nat :=
  all_calls.foldl (tallyStep eff) (0, 0, 0)

/-- Depth gate of the ranker: `max_depth is None or level <= max_depth`. -/
def depthOk (max_depth : Option Int) (level : Int) : Bool :=
  match max_depth with
  | none => true
  | some d => level ≤ d

/-- Build one recommendation record for a surviving candidate. -/
def recOf (total : Nat) (chains : List (String × Nat)) (pattern : String)
    (s : PatStats) : Recommendation :=
  { pattern := pattern, approved := s.approved, denied := s.denied,
    risk := s.risk,
    flow_impact :=
      roundTo1 (if 0 < total then (s.approved : ℚ) / (total : ℚ) * 100 else 0),
    level := s.level, category := classify_tool pattern,
    chained_count := (chains.lookup pattern).getD 0 }

/-- The candidate pool of the recommendation ranker, in `pattern_counts`
order: risk low, not already covered, passing the filters, within the depth
bound. -/
def analyzeRecs (stats : List (String × PatStats))
    (includeF : Option String) (exprP : Option (String → Bool))
    (examples : List (String × List String)) (chains : List (String × Nat))
    (max_depth : Option Int) (total : Nat) : List Recommendation :=
  stats.filterMap (fun kv =>
    if kv.2.already_allowed then none
    else if kv.2.risk ≠ "low" then none
    else if !(patternMatchesFilters includeF exprP examples kv.1) then none
    else if !(depthOk max_depth kv.2.level) then none
    else some (recOf total chains kv.1 kv.2))

/-!  The full analysis result. -/

/-- The result document of `analyze` (the display-string fields
`*_interval_display`, the transcript-session count, and the filtered
`raw_commands` listing are presentation additions around these core fields). -/
structure AnalyzeResult where
  total_calls : Nat
  auto_allowed : Nat
  prompted : Nat
  denied : Nat
  prompt_interval_seconds : ℚ
  projected_interval_seconds : ℚ
  prompt_interval_minutes : ℚ
  projected_interval_minutes : ℚ
  groups : List (String × List GroupEntry)
  recommendations : List Recommendation
  current_allow_list : List String
deriving DecidableEq

/-- The full sorted recommendation list (`final_recommendations` after the
descending stable sort on `flow_impact`, before the top-25 truncation). -/
def sortedRecs (all_calls : List Invocation) (allow_list : List String)
    (includeF : Option String) (exprP : Option (String → Bool))
    (max_depth : Option Int) : List Recommendation :=
  let eff := effectiveAllow allow_list
  (analyzeRecs (patternStats all_calls eff) includeF exprP
      (buildExamples all_calls) (buildChains all_calls) max_depth
      all_calls.length).insertionSort
    (fun a b => b.flow_impact ≤ a.flow_impact)

/-- The analysis core on a non-empty call list. -/
def analyzeCore (all_calls : List Invocation) (allow_list : List String)
    (includeF : Option String) (exprP : Option (String → Bool))
    (max_depth : Option Int) : AnalyzeResult :=
  let eff := effectiveAllow allow_list
  let examples := buildExamples all_calls
  let chains := buildChains all_calls
  let stats := patternStats all_calls eff
  let t := tallies all_calls eff
  let final := sortedRecs all_calls allow_list includeF exprP max_depth
  let prompt_interval := median (compute_prompt_intervals all_calls eff)
  let projected_allow := eff ++ final.map Recommendation.pattern
  let projected_interval := median (compute_prompt_intervals all_calls projected_allow)
  { total_calls := all_calls.length,
    auto_allowed := t.1, prompted := t.2.1, denied := t.2.2,
    prompt_interval_seconds := roundTo1 prompt_interval,
    projected_interval_seconds := roundTo1 projected_interval,
    prompt_interval_minutes := roundTo1 (prompt_interval / 60),
    projected_interval_minutes := roundTo1 (projected_interval / 60),
    groups := (buildGroups stats includeF exprP examples chains).insertionSort
      (fun a b => groupVolume b ≤ groupVolume a),
    recommendations := final.take 25,
    current_allow_list := allow_list }

/-- `analyze`: an empty in-memory invocation list yields the empty result
(`{}` in the script); otherwise the core result. -/
def analyze (all_calls : List Invocation) (allow_list : List String)
    (includeF : Option String) (exprP : Option (String → Bool))
    (max_depth : Option Int) : Option AnalyzeResult :=
  if all_calls.isEmpty then none
  else some (analyzeCore all_calls allow_list includeF exprP max_depth)

/-!  Concrete fixtures used by witness theorems. -/

/-- A denied `git push` invocation (timestamp unparseable). -/
def wPush : Invocation :=
  { tool_name := "Bash", command := "git push", outcome := "denied", ts := none }

/-- An approved `git status` invocation (timestamp unparseable). -/
def wStatus : Invocation :=
  { tool_name := "Bash", command := "git status", outcome := "approved", ts := none }

/-- The aggregated record produced for `Bash(git push *)` from `[wPush]`. -/
def wPushStats : PatStats :=
  { approved := 0, denied := 1, level := 1, destructive := true,
    already_allowed := false, risk := "high" }

/-- The five-invocation timing fixture of the specification: prompted calls at
t = 0 s, 30 s, 400 s, 430 s, 460 s. -/
def timingCalls : List Invocation :=
  [{ tool_name := "Bash", command := "git status", outcome := "approved", ts := some 0 },
   { tool_name := "Bash", command := "git status", outcome := "approved", ts := some 30 },
   { tool_name := "Bash", command := "git status", outcome := "approved", ts := some 400 },
   { tool_name := "Bash", command := "git status", outcome := "approved", ts := some 430 },
   { tool_name := "Bash", command := "git status", outcome := "approved", ts := some 460 }]

/-!  Helper lemmas shared by the claim theorems. -/

/-- Every record of `patternStats` is `riskOne` of a marked record with the
same key. -/
theorem mem_patternStats (all_calls : List Invocation) (eff : List String)
    {p : String} {s : PatStats} (h : (p, s) ∈ patternStats all_calls eff) :
    ∃ v0, (p, v0) ∈ countPatterns all_calls ∧
      s = riskOne (markOne eff p v0) := by
  unfold patternStats at h
  simp only [List.mem_map] at h
  obtain ⟨⟨k1, v1⟩, h1, h1eq⟩ := h
  obtain ⟨⟨k0, v0⟩, h0, h0eq⟩ := h1
  cases h0eq
  injection h1eq with hp hv
  subst hp
  subst hv
  exact ⟨v0, h0, rfl⟩

/-- Case analysis of the risk written by `riskOne`. -/
theorem riskOne_cases (t : PatStats) :
    (0 < (riskOne t).denied → (riskOne t).risk = "high")
  ∧ ((riskOne t).denied = 0 →
      ((riskOne t).destructive = true ∨ (riskOne t).approved < 5) →
      (riskOne t).risk = "medium")
  ∧ ((riskOne t).denied = 0 → (riskOne t).destructive = false →
      5 ≤ (riskOne t).approved → (riskOne t).risk = "low") := by
  unfold riskOne
  refine ⟨fun hd => ?_, fun hd hmd => ?_, fun hd hdf ha => ?_⟩
  · have h1 : t.denied > 0 := hd
    simp [h1]
  · have hd0 : t.denied = 0 := hd
    have h1 : ¬ t.denied > 0 := by omega
    rcases hmd with h2 | h2
    · have h2b : t.destructive = true := h2
      simp [h1, h2b]
    · have h2b : t.approved < 5 := h2
      simp [h1, h2b]
  · have hd0 : t.denied = 0 := hd
    have h1 : ¬ t.denied > 0 := by omega
    have h2 : t.destructive = false := hdf
    have h3 : 5 ≤ t.approved := ha
    have h4 : ¬ t.approved < 5 := by omega
    simp [h1, h2, h4]

/-!  Claim theorems. -/

/-- C7: the apply operation is idempotent on the allow-list rule collection,
never removes or reorders existing entries (the old list is a prefix of the
new one), and only ever appends the rule when it is not already present. -/
theorem C7_apply_idempotent (allow : List String) (pattern : String) :
    apply_rule (apply_rule allow pattern) pattern = apply_rule allow pattern
  ∧ allow <+: apply_rule allow pattern
  ∧ (pattern ∈ allow → apply_rule allow pattern = allow)
  ∧ (pattern ∉ allow → apply_rule allow pattern = allow ++ [pattern]) := by
  unfold apply_rule pattern_to_settings_format
  by_cases h : pattern ∈ allow
  · simp [h]
  · simp [h]

/-- C7 witness: applying `Bash(git status *)` to a two-rule list once appends
it, and a second application leaves the list unchanged. -/
theorem C7_apply_idempotent_witness :
    ("Bash(git status *)" ∈ ["Read", "Bash(git status *)"])
  ∧ apply_rule (apply_rule ["Read", "Bash(git status *)"] "Bash(git status *)")
      "Bash(git status *)" =
      apply_rule ["Read", "Bash(git status *)"] "Bash(git status *)"
  ∧ apply_rule ["Read", "Bash(git status *)"] "Bash(git status *)" =
      ["Read", "Bash(git status *)"] :=
  ⟨by decide,
   (C7_apply_idempotent ["Read", "Bash(git status *)"] "Bash(git status *)").1,
   (C7_apply_idempotent ["Read", "Bash(git status *)"] "Bash(git status *)").2.2.1
     (by decide)⟩

/-- C1: every aggregated pattern record is risk-classified with the
documented precedence — any recorded denial forces `high` regardless of the
approval count; otherwise a set destructive flag or fewer than five approvals
gives `medium`; otherwise `low`. -/
theorem C1_risk_precedence (all_calls : List Invocation) (eff : List String)
    (p : String) (s : PatStats) (h : (p, s) ∈ patternStats all_calls eff) :
    (0 < s.denied → s.risk = "high")
  ∧ (s.denied = 0 → (s.destructive = true ∨ s.approved < 5) → s.risk = "medium")
  ∧ (s.denied = 0 → s.destructive = false → 5 ≤ s.approved → s.risk = "low") := by
  obtain ⟨v0, _, hs⟩ := mem_patternStats all_calls eff h
  rw [hs]
  exact riskOne_cases (markOne eff p v0)

/-- C1 witness: the `Bash(git push *)` record aggregated from one denied
`git push` call carries one denial and is classified `high`. -/
theorem C1_risk_precedence_witness :
    (("Bash(git push *)", wPushStats) ∈ patternStats [wPush] (effectiveAllow []))
  ∧ 0 < wPushStats.denied
  ∧ wPushStats.risk = "high" :=
  ⟨by decide, by decide,
   (C1_risk_precedence [wPush] (effectiveAllow []) "Bash(git push *)" wPushStats
     (by decide)).1 (by decide)⟩

/-- Shifting a consecutive integer range by one. -/
theorem range_map_int_shift (n : Nat) (i : Int) :
    (List.range (n + 1)).map (fun j : Nat => i + (j : Int)) =
      i :: (List.range n).map (fun j : Nat => (i + 1) + (j : Int)) := by
  rw [List.range_succ_eq_map, List.map_cons, List.map_map]
  refine congrArg₂ _ (by simp) ?_
  apply List.map_congr_left
  intro a _
  show i + ((a + 1 : Nat) : Int) = (i + 1) + (a : Int)
  push_cast
  ring

/-- The prefix walk emits consecutive levels starting at its start index. -/
theorem walk_levels (ts : List String) (i : Int) (acc : List String) :
    ((walk ts i acc).1).map Prod.fst =
      (List.range ((walk ts i acc).1).length).map (fun j : Nat => i + (j : Int)) := by
  induction ts generalizing i acc with
  | nil => simp [walk]
  | cons t ts2 ih =>
    by_cases h : stopToken t
    · simp [walk, h]
    · simp only [walk, h, Bool.false_eq_true, if_false, List.map_cons, List.length_cons]
      rw [range_map_int_shift]
      rw [ih]

/-- Every level emitted by the prefix walk is at least its start index. -/
theorem walk_level_ge (ts : List String) (i : Int) (acc : List String) :
    ∀ x ∈ (walk ts i acc).1, i ≤ x.1 := by
  induction ts generalizing i acc with
  | nil => simp [walk]
  | cons t ts2 ih =>
    by_cases h : stopToken t
    · simp [walk, h]
    · intro x hx
      simp only [walk, h, Bool.false_eq_true, if_false, List.mem_cons] at hx
      rcases hx with hx | hx
      · rw [hx]
      · have := ih (i + 1) (acc ++ [t]) x hx
        omega

/-- Unfolding `joinSp` on a two-or-more element list. -/
theorem joinSp_cons_cons (a b : String) (l : List String) :
    joinSp (a :: b :: l) = a ++ " " ++ joinSp (b :: l) := rfl

/-- Appending one token to a non-empty joined prefix. -/
theorem joinSp_append (acc : List String) (t : String) (h : acc ≠ []) :
    joinSp (acc ++ [t]) = joinSp acc ++ " " ++ t := by
  induction acc with
  | nil => exact absurd rfl h
  | cons a rest ih =>
    cases rest with
    | nil => simp [joinSp]
    | cons b rest2 =>
      have h2 := ih (by simp)
      simp only [List.cons_append] at h2 ⊢
      rw [joinSp_cons_cons, joinSp_cons_cons, h2]
      simp [String.append_assoc]

/-- Length of a wrapped prefix pattern. -/
theorem mkBashPat_length (s : String) : (mkBashPat s).length = s.length + 8 := by
  have h1 : ("Bash(" : String).length = 5 := rfl
  have h2 : (" *)" : String).length = 3 := rfl
  simp only [mkBashPat, String.length_append, h1, h2]
  omega

/-- Extending the accumulated prefix strictly lengthens the joined text. -/
theorem joinSp_append_length (acc : List String) (t : String) (h : acc ≠ []) :
    (joinSp acc).length < (joinSp (acc ++ [t])).length := by
  rw [joinSp_append acc t h]
  have hsp : (" " : String).length = 1 := rfl
  simp only [String.length_append, hsp]
  omega

/-- Every pattern emitted by the prefix walk is strictly longer than the
pattern of the accumulated prefix at entry. -/
theorem walk_snd_length (ts : List String) (i : Int) (acc : List String)
    (h : acc ≠ []) :
    ∀ x ∈ (walk ts i acc).1, (mkBashPat (joinSp acc)).length < x.2.length := by
  induction ts generalizing i acc with
  | nil => simp [walk]
  | cons t ts2 ih =>
    by_cases hs : stopToken t
    · simp [walk, hs]
    · intro x hx
      simp only [walk, hs, Bool.false_eq_true, if_false, List.mem_cons] at hx
      have hgrow := joinSp_append_length acc t h
      rcases hx with hx | hx
      · rw [hx]
        simp only [mkBashPat_length]
        omega
      · have := ih (i + 1) (acc ++ [t]) (by simp) x hx
        simp only [mkBashPat_length] at this ⊢
        omega

/-- The patterns of the prefix walk have pairwise strictly increasing
lengths. -/
theorem walk_snd_pairwise (ts : List String) (i : Int) (acc : List String)
    (h : acc ≠ []) :
    ((walk ts i acc).1.map Prod.snd).Pairwise (fun a b => a.length < b.length) := by
  induction ts generalizing i acc with
  | nil => simp [walk]
  | cons t ts2 ih =>
    by_cases hs : stopToken t
    · simp [walk, hs]
    · simp only [walk, hs, Bool.false_eq_true, if_false, List.map_cons]
      refine List.Pairwise.cons ?_ (ih (i + 1) (acc ++ [t]) (by simp))
      intro y hy
      obtain ⟨x, hx, hxy⟩ := List.mem_map.mp hy
      have := walk_snd_length ts2 (i + 1) (acc ++ [t]) (by simp) x hx
      rw [← hxy]
      simpa [mkBashPat_length, joinSp_append acc t h, String.length_append]
        using this

/-- The verb tail is empty or one fresh level −1 entry. -/
theorem verbTail_cases (base : String) (pp snds : List String) :
    verbTail base pp snds = [] ∨
    ∃ vp, verbTail base pp snds = [((-1 : Int), vp)] ∧ vp ∉ snds := by
  unfold verbTail
  by_cases h1 : (3 ≤ pp.length && CLI_VERBS.contains (pyLower (pp.getLastD ""))) = true
  · rw [if_pos h1]
    by_cases h2 : snds.contains
        ("Bash(" ++ base ++ " * " ++ pp.getLastD "" ++ " *)") = true
    · exact Or.inl (by rw [if_pos h2])
    · refine Or.inr ⟨_, by rw [if_neg h2], fun hm => h2 (List.elem_iff.mpr hm)⟩
  · exact Or.inl (by rw [if_neg h1])

/-- Structural case analysis of `extract_patterns`: either a single level-0
entry, or the prefix series (level 0 plus the walk) followed by an empty
tail or by one level −1 verb entry whose pattern string is fresh. -/
theorem extract_patterns_shape_cases (t c : String) :
    (∃ s, extract_patterns t c = [((0 : Int), s)]) ∨
    ∃ base rest vtail,
      extract_patterns t c =
        ((((0 : Int), mkBashPat base) :: (walk rest 1 [base]).1) ++ vtail) ∧
      (vtail = [] ∨ ∃ vp, vtail = [((-1 : Int), vp)] ∧
        vp ∉ ((((0 : Int), mkBashPat base) :: (walk rest 1 [base]).1).map Prod.snd)) := by
  by_cases ht : t = "Bash"
  · subst ht
    unfold extract_patterns
    rw [if_neg (by simp)]
    cases hsp : pySplit c with
    | nil => exact Or.inl ⟨"Bash", rfl⟩
    | cons base rest =>
      right
      refine ⟨base, rest,
        verbTail base (walk rest 1 [base]).2
          ((((0 : Int), mkBashPat base) :: (walk rest 1 [base]).1).map Prod.snd),
        rfl, ?_⟩
      rcases verbTail_cases base (walk rest 1 [base]).2
          ((((0 : Int), mkBashPat base) :: (walk rest 1 [base]).1).map Prod.snd) with
        h | ⟨vp, hvp, hnm⟩
      · exact Or.inl h
      · exact Or.inr ⟨vp, hvp, hnm⟩
  · exact Or.inl ⟨t, by unfold extract_patterns; rw [if_pos ht]⟩

/-- Specialisation of the range shift to a zero start. -/
theorem range_map_int_zero (n : Nat) :
    (List.range (n + 1)).map (fun j : Nat => (j : Int)) =
      0 :: (List.range n).map (fun j : Nat => 1 + (j : Int)) := by
  have h := range_map_int_shift n 0
  simpa using h

/-- The level-0 entry followed by the walk carries levels `0, 1, …, k`. -/
theorem prefix_series_levels (base : String) (rest : List String) :
    ((((0 : Int), mkBashPat base) :: (walk rest 1 [base]).1).map Prod.fst) =
      (List.range ((((0 : Int), mkBashPat base) :: (walk rest 1 [base]).1).length)).map
        (fun j : Nat => (j : Int)) := by
  rw [List.map_cons, List.length_cons, range_map_int_zero, walk_levels]

/-- No entry of the prefix series has level `-1`. -/
theorem prefix_series_level_nonneg (base : String) (rest : List String) :
    ∀ x ∈ ((0 : Int), mkBashPat base) :: (walk rest 1 [base]).1, 0 ≤ x.1 := by
  intro x hx
  rcases List.mem_cons.mp hx with h | h
  · rw [h]
  · have := walk_level_ge rest 1 [base] x h
    omega

/-- The pattern strings of the prefix series have pairwise increasing
lengths. -/
theorem prefix_series_snd_pairwise (base : String) (rest : List String) :
    (((((0 : Int), mkBashPat base) :: (walk rest 1 [base]).1).map Prod.snd)).Pairwise
      (fun a b => a.length < b.length) := by
  rw [List.map_cons]
  refine List.Pairwise.cons ?_ (walk_snd_pairwise rest 1 [base] (by simp))
  intro y hy
  obtain ⟨x, hx, hxy⟩ := List.mem_map.mp hy
  have h := walk_snd_length rest 1 [base] (by simp) x hx
  rw [← hxy]
  simpa [joinSp] using h

/-- C3: for every invocation the extractor returns at least one pattern; the
prefix-series levels (all entries other than level −1) are exactly
`0, 1, …, k` in order; at most one level −1 entry appears; no pattern string
repeats; and for `git status --short` the walk stops at the flag token,
yielding exactly the `git` and `git status` prefixes. -/
theorem C3_extract_patterns_shape :
    (∀ t c, 1 ≤ (extract_patterns t c).length)
  ∧ (∀ t c,
      (((extract_patterns t c).filter (fun x => x.1 != -1)).map Prod.fst) =
        (List.range (((extract_patterns t c).filter (fun x => x.1 != -1)).length)).map
          (fun j : Nat => (j : Int)))
  ∧ (∀ t c, ((extract_patterns t c).filter (fun x => x.1 == -1)).length ≤ 1)
  ∧ (∀ t c, ((extract_patterns t c).map Prod.snd).Nodup)
  ∧ extract_patterns "Bash" "git status --short" =
      [(0, "Bash(git *)"), (1, "Bash(git status *)")] := by
  have hne : ((0 : Int) != -1) = true := by decide
  have hisne : ((-1 : Int) != -1) = false := by decide
  have hiseq : ((-1 : Int) == -1) = true := by decide
  refine ⟨?_, ?_, ?_, ?_, by decide⟩
  · intro t c
    rcases extract_patterns_shape_cases t c with ⟨s, hs⟩ | ⟨base, rest, vtail, he, _⟩
    · rw [hs]; simp
    · rw [he]; simp
  · intro t c
    rcases extract_patterns_shape_cases t c with ⟨s, hs⟩ | ⟨base, rest, vtail, he, hv⟩
    · rw [hs]
      simp [List.filter_cons, hne, List.range_succ]
    · rw [he, List.filter_append]
      have hpre : (((0 : Int), mkBashPat base) :: (walk rest 1 [base]).1).filter
          (fun x => x.1 != -1) =
          ((0 : Int), mkBashPat base) :: (walk rest 1 [base]).1 := by
        refine List.filter_eq_self.mpr ?_
        intro a ha
        have := prefix_series_level_nonneg base rest a ha
        simpa using by omega
      have hvt : vtail.filter (fun x => x.1 != -1) = [] := by
        rcases hv with h0 | ⟨vp, hv1, _⟩
        · rw [h0]; rfl
        · rw [hv1]
          simp [List.filter_cons, hisne]
      rw [hpre, hvt, List.append_nil]
      exact prefix_series_levels base rest
  · intro t c
    rcases extract_patterns_shape_cases t c with ⟨s, hs⟩ | ⟨base, rest, vtail, he, hv⟩
    · rw [hs]
      simp [List.filter_cons]
    · rw [he, List.filter_append, List.length_append]
      have hpre : (((0 : Int), mkBashPat base) :: (walk rest 1 [base]).1).filter
          (fun x => x.1 == -1) = [] := by
        refine List.filter_eq_nil_iff.mpr ?_
        intro a ha
        have := prefix_series_level_nonneg base rest a ha
        simpa using by omega
      have hvt : (vtail.filter (fun x => x.1 == -1)).length ≤ 1 := by
        rcases hv with h0 | ⟨vp, hv1, _⟩
        · rw [h0]; simp
        · rw [hv1]
          simp [List.filter_cons]
      rw [hpre]
      simpa using hvt
  · intro t c
    rcases extract_patterns_shape_cases t c with ⟨s, hs⟩ | ⟨base, rest, vtail, he, hv⟩
    · rw [hs]; simp
    · rw [he, List.map_append]
      have hLnd : ((((0 : Int), mkBashPat base) :: (walk rest 1 [base]).1).map
          Prod.snd).Nodup := by
        refine (prefix_series_snd_pairwise base rest).imp ?_
        intro a b hab heq
        rw [heq] at hab
        omega
      rcases hv with h0 | ⟨vp, hv1, hv2⟩
      · rw [h0]
        simpa using hLnd
      · rw [hv1]
        refine List.Nodup.append hLnd (by simp) ?_
        intro a ha hb
        simp only [List.map_cons, List.map_nil, List.mem_singleton] at hb
        rw [hb] at ha
        exact hv2 ha

/-- C4: the destructiveness detector holds exactly when the normalised
(lowercased, stripped) command equals or glob-matches a fixed destructive
pattern, or contains a fixed destructive keyword; with the three pinned
examples. -/
theorem C4_is_destructive_characterisation :
    (∀ cmd : String, is_destructive cmd = true ↔
      ((∃ pat ∈ DESTRUCTIVE_PATTERNS,
          fnmatchB (normCmd cmd) pat = true ∨ normCmd cmd = pat)
        ∨ ∃ kw ∈ DESTRUCTIVE_KEYWORDS, pyIn kw (normCmd cmd) = true))
  ∧ is_destructive "rm -rf /tmp/x" = true
  ∧ is_destructive "git status" = false
  ∧ is_destructive "terraform apply --force" = true := by
  refine ⟨fun cmd => ?_, by decide, by decide, by decide⟩
  unfold is_destructive
  simp [List.any_eq_true]

/-- Unpacking membership in the recommendation candidate pool. -/
theorem mem_analyzeRecs {stats : List (String × PatStats)}
    {includeF : Option String} {exprP : Option (String → Bool)}
    {examples : List (String × List String)} {chains : List (String × Nat)}
    {max_depth : Option Int} {total : Nat} {r : Recommendation}
    (h : r ∈ analyzeRecs stats includeF exprP examples chains max_depth total) :
    ∃ kv ∈ stats, kv.2.already_allowed = false ∧ kv.2.risk = "low" ∧
      r = recOf total chains kv.1 kv.2 := by
  unfold analyzeRecs at h
  obtain ⟨kv, hkv, hsome⟩ := List.mem_filterMap.mp h
  refine ⟨kv, hkv, ?_⟩
  by_cases h1 : kv.2.already_allowed = true
  · rw [if_pos h1] at hsome; cases hsome
  · rw [if_neg h1] at hsome
    by_cases h2 : kv.2.risk ≠ "low"
    · rw [if_pos h2] at hsome; cases hsome
    · rw [if_neg h2] at hsome
      by_cases h3 : (!patternMatchesFilters includeF exprP examples kv.1) = true
      · rw [if_pos h3] at hsome; cases hsome
      · rw [if_neg h3] at hsome
        by_cases h4 : (!depthOk max_depth kv.2.level) = true
        · rw [if_pos h4] at hsome; cases hsome
        · rw [if_neg h4] at hsome
          refine ⟨by simpa using h1, by simpa using h2, ?_⟩
          injection hsome with hsome2
          rw [hsome2]

/-- The `already_allowed` annotation of every aggregated record is the
allow-list coverage check of its own pattern. -/
theorem patternStats_already_allowed (all_calls : List Invocation)
    (eff : List String) {p : String} {s : PatStats}
    (h : (p, s) ∈ patternStats all_calls eff) :
    s.already_allowed = is_pattern_allowed p eff := by
  obtain ⟨v0, _, hs⟩ := mem_patternStats all_calls eff h
  rw [hs]
  rfl

/-- C2: a pattern equal to an effective-allow-list entry, or glob-matched by
one, never appears among the recommendation candidates nor in the result
document's recommendation list. -/
theorem C2_covered_pattern_never_recommended (all_calls : List Invocation)
    (allow_list : List String) (includeF : Option String)
    (exprP : Option (String → Bool)) (max_depth : Option Int)
    (p entry : String) (hentry : entry ∈ effectiveAllow allow_list)
    (hcov : p = entry ∨ fnmatchB p entry = true) :
    p ∉ (sortedRecs all_calls allow_list includeF exprP max_depth).map
        Recommendation.pattern
  ∧ p ∉ ((analyzeCore all_calls allow_list includeF exprP
        max_depth).recommendations).map Recommendation.pattern := by
  have hallow : is_pattern_allowed p (effectiveAllow allow_list) = true := by
    unfold is_pattern_allowed pattern_to_settings_format
    simp only [List.any_eq_true]
    refine ⟨entry, hentry, ?_⟩
    rcases hcov with h | h
    · simp [h]
    · simp [h]
  have hmain : p ∉ (sortedRecs all_calls allow_list includeF exprP max_depth).map
      Recommendation.pattern := by
    intro hp
    obtain ⟨r, hr, hrp⟩ := List.mem_map.mp hp
    unfold sortedRecs at hr
    have hr2 := (List.perm_insertionSort _ _).mem_iff.mp hr
    obtain ⟨kv, hkv, hna, _, hrec⟩ := mem_analyzeRecs hr2
    have hkp : kv.1 = p := by
      rw [hrec] at hrp
      exact hrp
    have halready := patternStats_already_allowed all_calls
      (effectiveAllow allow_list) (p := kv.1) (s := kv.2) hkv
    rw [hkp, hallow] at halready
    rw [halready] at hna
    cases hna
  refine ⟨hmain, ?_⟩
  intro hp
  have hrec : (analyzeCore all_calls allow_list includeF exprP
      max_depth).recommendations =
      (sortedRecs all_calls allow_list includeF exprP max_depth).take 25 := rfl
  rw [hrec] at hp
  obtain ⟨r, hr, hrp⟩ := List.mem_map.mp hp
  exact hmain (List.mem_map.mpr ⟨r, List.mem_of_mem_take hr, hrp⟩)

/-- C2 witness: with `Bash(git *)` on the allow list, the glob-covered
pattern `Bash(git status *)` is absent from the recommendations computed over
one approved `git status` invocation. -/
theorem C2_covered_pattern_never_recommended_witness :
    ("Bash(git *)" ∈ effectiveAllow ["Bash(git *)"])
  ∧ fnmatchB "Bash(git status *)" "Bash(git *)" = true
  ∧ "Bash(git status *)" ∉
      (sortedRecs [wStatus] ["Bash(git *)"] none none none).map
        Recommendation.pattern :=
  ⟨by decide, by decide,
   (C2_covered_pattern_never_recommended [wStatus] ["Bash(git *)"] none none none
     "Bash(git status *)" "Bash(git *)" (by decide) (Or.inr (by decide))).1⟩

/-- The flow impact stored in every candidate equals its approval share of
all invocations, rounded to one decimal (with `x / 0 = 0` matching the
script's total-zero guard, a case that cannot arise for a non-empty run). -/
theorem analyzeRecs_flow_impact {stats : List (String × PatStats)}
    {includeF : Option String} {exprP : Option (String → Bool)}
    {examples : List (String × List String)} {chains : List (String × Nat)}
    {max_depth : Option Int} {total : Nat} {r : Recommendation}
    (h : r ∈ analyzeRecs stats includeF exprP examples chains max_depth total) :
    r.flow_impact = roundTo1 ((r.approved : ℚ) / (total : ℚ) * 100) := by
  obtain ⟨kv, _, _, _, hrec⟩ := mem_analyzeRecs h
  rw [hrec]
  show roundTo1 (if 0 < total then (kv.2.approved : ℚ) / (total : ℚ) * 100 else 0)
    = roundTo1 ((kv.2.approved : ℚ) / (total : ℚ) * 100)
  by_cases ht : 0 < total
  · rw [if_pos ht]
  · rw [if_neg ht]
    have htz : total = 0 := by omega
    rw [htz]
    norm_num

/-- C6: every candidate surviving selection — the whole pool the ranker
builds, including members beyond the 25-entry cap — carries a flow impact
equal to its approved count over the total invocation count times 100,
rounded to one decimal; the result's recommendations are sorted by
descending flow impact, capped at 25 entries, and carry that same score. -/
theorem C6_recommendations_scored_sorted_capped (all_calls : List Invocation)
    (allow_list : List String) (includeF : Option String)
    (exprP : Option (String → Bool)) (max_depth : Option Int) :
    (analyzeRecs (patternStats all_calls (effectiveAllow allow_list)) includeF
        exprP (buildExamples all_calls) (buildChains all_calls) max_depth
        all_calls.length).all
      (fun r => r.flow_impact ==
        roundTo1 ((r.approved : ℚ) / (all_calls.length : ℚ) * 100)) = true
  ∧ ((analyzeCore all_calls allow_list includeF exprP
        max_depth).recommendations).Pairwise
      (fun a b => b.flow_impact ≤ a.flow_impact)
  ∧ ((analyzeCore all_calls allow_list includeF exprP
        max_depth).recommendations).length ≤ 25
  ∧ ((analyzeCore all_calls allow_list includeF exprP
        max_depth).recommendations).all
      (fun r => r.flow_impact ==
        roundTo1 ((r.approved : ℚ) / (all_calls.length : ℚ) * 100)) = true := by
  have hpool : (analyzeRecs (patternStats all_calls (effectiveAllow allow_list))
      includeF exprP (buildExamples all_calls) (buildChains all_calls) max_depth
      all_calls.length).all
      (fun r => r.flow_impact ==
        roundTo1 ((r.approved : ℚ) / (all_calls.length : ℚ) * 100)) = true := by
    rw [List.all_eq_true]
    intro r hr
    have hfi := analyzeRecs_flow_impact hr
    simpa [beq_iff_eq] using hfi
  have hrec : (analyzeCore all_calls allow_list includeF exprP
      max_depth).recommendations =
      (sortedRecs all_calls allow_list includeF exprP max_depth).take 25 := rfl
  rw [hrec]
  refine ⟨hpool, ?_, List.length_take_le _ _, ?_⟩
  · have hs : (sortedRecs all_calls allow_list includeF exprP max_depth).Pairwise
        (fun a b => b.flow_impact ≤ a.flow_impact) := by
      unfold sortedRecs
      haveI : IsTotal Recommendation (fun a b => b.flow_impact ≤ a.flow_impact) :=
        ⟨fun a b => le_total _ _⟩
      haveI : IsTrans Recommendation (fun a b => b.flow_impact ≤ a.flow_impact) :=
        ⟨fun _ _ _ h1 h2 => le_trans h2 h1⟩
      exact List.sorted_insertionSort _ _
    exact List.Pairwise.sublist (List.take_sublist _ _) hs
  · rw [List.all_eq_true]
    intro r hr
    have hr2 := List.mem_of_mem_take hr
    unfold sortedRecs at hr2
    have hr3 := (List.perm_insertionSort _ _).mem_iff.mp hr2
    have hfi := analyzeRecs_flow_impact hr3
    simpa [beq_iff_eq] using hfi

/-- C9: the projected median prompt interval of the result is computed
against the effective allow list extended with the pattern of every entry of
the full sorted recommendation set, while the result document itself exposes
only the first 25 of that set. -/
theorem C9_projected_uses_full_recommendation_set (all_calls : List Invocation)
    (allow_list : List String) (includeF : Option String)
    (exprP : Option (String → Bool)) (max_depth : Option Int) :
    (analyzeCore all_calls allow_list includeF exprP
        max_depth).projected_interval_seconds
      = roundTo1 (median (compute_prompt_intervals all_calls
          (effectiveAllow allow_list ++
            (sortedRecs all_calls allow_list includeF exprP max_depth).map
              Recommendation.pattern)))
  ∧ (analyzeCore all_calls allow_list includeF exprP
        max_depth).recommendations
      = (sortedRecs all_calls allow_list includeF exprP max_depth).take 25 :=
  ⟨rfl, rfl⟩

/-- C8: an invocation with an unparseable timestamp still feeds the pattern
counters, the risk classification and the grouping statistics exactly as one
with any parsed timestamp would — those passes never read the timestamp — but
it contributes no event and no gap to the timing analyzer. -/
theorem C8_unparseable_timestamp_scope (all_calls : List Invocation)
    (f : Invocation → Option ℚ) (eff allow_list : List String)
    (includeF : Option String) (exprP : Option (String → Bool))
    (pre post : List Invocation) (c : Invocation) :
    countPatterns (all_calls.map (fun x => { x with ts := f x }))
      = countPatterns all_calls
  ∧ buildExamples (all_calls.map (fun x => { x with ts := f x }))
      = buildExamples all_calls
  ∧ buildChains (all_calls.map (fun x => { x with ts := f x }))
      = buildChains all_calls
  ∧ patternStats (all_calls.map (fun x => { x with ts := f x })) eff
      = patternStats all_calls eff
  ∧ buildGroups (patternStats (all_calls.map (fun x => { x with ts := f x })) eff)
        includeF exprP
        (buildExamples (all_calls.map (fun x => { x with ts := f x })))
        (buildChains (all_calls.map (fun x => { x with ts := f x })))
      = buildGroups (patternStats all_calls eff) includeF exprP
        (buildExamples all_calls) (buildChains all_calls)
  ∧ compute_prompt_intervals (pre ++ { c with ts := none } :: post) allow_list
      = compute_prompt_intervals (pre ++ post) allow_list := by
  have h1 : countPatterns (all_calls.map (fun x => { x with ts := f x }))
      = countPatterns all_calls := by
    unfold countPatterns
    rw [List.foldl_map]
  have h2 : buildExamples (all_calls.map (fun x => { x with ts := f x }))
      = buildExamples all_calls := by
    unfold buildExamples
    rw [List.foldl_map]
  have h3 : buildChains (all_calls.map (fun x => { x with ts := f x }))
      = buildChains all_calls := by
    unfold buildChains
    rw [List.foldl_map]
  have h4 : patternStats (all_calls.map (fun x => { x with ts := f x })) eff
      = patternStats all_calls eff := by
    unfold patternStats
    rw [h1]
  have hta : timedCalls (pre ++ { c with ts := none } :: post) allow_list
      = timedCalls (pre ++ post) allow_list := by
    unfold timedCalls
    rw [List.filterMap_append, List.filterMap_append, List.filterMap_cons]
  have h6 : compute_prompt_intervals (pre ++ { c with ts := none } :: post)
      allow_list = compute_prompt_intervals (pre ++ post) allow_list := by
    unfold compute_prompt_intervals
    rw [hta]
  exact ⟨h1, h2, h3, h4, by rw [h2, h3, h4], h6⟩

/-- The three possible increments of one step of the counting loop. -/
theorem tallyStep_cases (eff : List String) (acc : Nat × Nat × Nat)
    (x : Invocation) :
    tallyStep eff acc x = (acc.1 + 1, acc.2.1, acc.2.2) ∨
    tallyStep eff acc x = (acc.1, acc.2.1 + 1, acc.2.2 + 1) ∨
    tallyStep eff acc x = (acc.1, acc.2.1 + 1, acc.2.2) := by
  unfold tallyStep
  by_cases h1 : anyAllowed eff x = true
  · rw [if_pos h1]; exact Or.inl rfl
  · rw [if_neg h1]
    by_cases h2 : x.outcome = "denied"
    · rw [if_pos h2]; exact Or.inr (Or.inl rfl)
    · rw [if_neg h2]; exact Or.inr (Or.inr rfl)

/-- Invariants of the counting fold: auto + prompted grows by exactly one per
call, and denied never exceeds prompted. -/
theorem tallies_fold_invariant (eff : List String) (calls : List Invocation) :
    ∀ a p d : Nat,
      ((List.foldl (tallyStep eff) (a, p, d) calls).1 +
          (List.foldl (tallyStep eff) (a, p, d) calls).2.1 =
        a + p + calls.length)
      ∧ (d ≤ p →
          (List.foldl (tallyStep eff) (a, p, d) calls).2.2 ≤
            (List.foldl (tallyStep eff) (a, p, d) calls).2.1) := by
  induction calls with
  | nil =>
    intro a p d
    exact ⟨by simp, fun h => by simpa using h⟩
  | cons x xs ih =>
    intro a p d
    rw [List.foldl_cons]
    rcases tallyStep_cases eff (a, p, d) x with h | h | h
    · have h2 : tallyStep eff (a, p, d) x = (a + 1, p, d) := h
      rw [h2]
      refine ⟨?_, fun hd => (ih (a + 1) p d).2 hd⟩
      have := (ih (a + 1) p d).1
      simp only [List.length_cons]
      omega
    · have h2 : tallyStep eff (a, p, d) x = (a, p + 1, d + 1) := h
      rw [h2]
      refine ⟨?_, fun hd => (ih a (p + 1) (d + 1)).2 (by omega)⟩
      have := (ih a (p + 1) (d + 1)).1
      simp only [List.length_cons]
      omega
    · have h2 : tallyStep eff (a, p, d) x = (a, p + 1, d) := h
      rw [h2]
      refine ⟨?_, fun hd => (ih a (p + 1) d).2 (by omega)⟩
      have := (ih a (p + 1) d).1
      simp only [List.length_cons]
      omega

/-- C10: the result counters satisfy auto_allowed + prompted = total_calls
and denied ≤ prompted; and a call any of whose patterns is covered by the
effective allow list bumps only the auto counter even when its recorded
outcome was a denial, so covered denials never reach the denied count. -/
theorem C10_counter_invariants (all_calls : List Invocation)
    (allow_list : List String) (includeF : Option String)
    (exprP : Option (String → Bool)) (max_depth : Option Int) (c : Invocation)
    (hcov : anyAllowed (effectiveAllow allow_list) c = true)
    (_hden : c.outcome = "denied") :
    (tallies all_calls (effectiveAllow allow_list)).1 +
        (tallies all_calls (effectiveAllow allow_list)).2.1 = all_calls.length
  ∧ (tallies all_calls (effectiveAllow allow_list)).2.2 ≤
        (tallies all_calls (effectiveAllow allow_list)).2.1
  ∧ tallies (all_calls ++ [c]) (effectiveAllow allow_list) =
      ((tallies all_calls (effectiveAllow allow_list)).1 + 1,
       (tallies all_calls (effectiveAllow allow_list)).2.1,
       (tallies all_calls (effectiveAllow allow_list)).2.2)
  ∧ (∀ res, analyze all_calls allow_list includeF exprP max_depth = some res →
      res.auto_allowed + res.prompted = res.total_calls ∧
        res.denied ≤ res.prompted) := by
  have hsum : (tallies all_calls (effectiveAllow allow_list)).1 +
      (tallies all_calls (effectiveAllow allow_list)).2.1 = all_calls.length := by
    unfold tallies
    simpa using
      (tallies_fold_invariant (effectiveAllow allow_list) all_calls 0 0 0).1
  have hle : (tallies all_calls (effectiveAllow allow_list)).2.2 ≤
      (tallies all_calls (effectiveAllow allow_list)).2.1 := by
    unfold tallies
    exact (tallies_fold_invariant (effectiveAllow allow_list) all_calls 0 0 0).2
      (le_refl 0)
  refine ⟨hsum, hle, ?_, ?_⟩
  · unfold tallies
    rw [List.foldl_append, List.foldl_cons, List.foldl_nil]
    unfold tallyStep
    rw [if_pos hcov]
  · intro res hres
    unfold analyze at hres
    by_cases he : all_calls.isEmpty = true
    · rw [if_pos he] at hres; cases hres
    · rw [if_neg he] at hres
      injection hres with hres2
      rw [← hres2]
      exact ⟨hsum, hle⟩

/-- C10 witness: a denied `git push` covered by `Bash(git *)` is tallied as
auto-allowed and leaves the denied count untouched. -/
theorem C10_counter_invariants_witness :
    anyAllowed (effectiveAllow ["Bash(git *)"]) wPush = true
  ∧ wPush.outcome = "denied"
  ∧ tallies ([wStatus] ++ [wPush]) (effectiveAllow ["Bash(git *)"]) =
      ((tallies [wStatus] (effectiveAllow ["Bash(git *)"])).1 + 1,
       (tallies [wStatus] (effectiveAllow ["Bash(git *)"])).2.1,
       (tallies [wStatus] (effectiveAllow ["Bash(git *)"])).2.2) :=
  ⟨by decide, by decide,
   (C10_counter_invariants [wStatus] ["Bash(git *)"] none none none wPush
     (by decide) (by decide)).2.2.1⟩

/-- C5: the timing analyzer applied to prompted invocations at t = 0, 30,
400, 430 and 460 seconds splits them at the 300-second AFK gap into the
windows {0, 30} and {400, 430, 460}, pools the prompted inter-arrival gaps
[30, 30, 30] across the windows, and reports their median 30; the median of
an empty pool is 0, and the median of an even-sized pool is the mean of the
two central values. -/
theorem C5_timing_windows_median :
    compute_prompt_intervals timingCalls [] = [30, 30, 30]
  ∧ median (compute_prompt_intervals timingCalls []) = 30
  ∧ median [] = 0
  ∧ median [10, 20, 30, 40] = 25 := by
  have h1 : compute_prompt_intervals timingCalls [] = [30, 30, 30] := by
    have ht : timedCalls timingCalls [] =
        [(0, true), (30, true), (400, true), (430, true), (460, true)] := by
      decide
    unfold compute_prompt_intervals
    rw [ht]
    norm_num [List.insertionSort, List.orderedInsert, windowsFrom, promptGaps]
  refine ⟨h1, ?_, by norm_num [median],
    by norm_num [median, List.insertionSort, List.orderedInsert]⟩
  rw [h1]
  norm_num [median, List.insertionSort, List.orderedInsert]

/-!  Concrete evaluation checks of the embedding (kernel-checked). -/
example : pySplit "  git   status --short " = ["git", "status", "--short"] := by decide
example : fnmatchB "rm -rf /tmp/x" "rm *" = true := by decide
example : fnmatchB "git status" "git push *" = false := by decide
example : fnmatchB "abc" "a[b-d]c" = true := by decide
example : fnmatchB "abc" "a[!b-d]c" = false := by decide
example : fnmatchB "a[c" "a[c" = true := by decide
example : is_destructive "rm -rf /tmp/x" = true := by decide
example : is_destructive "git status" = false := by decide
example : is_destructive "terraform apply --force" = true := by decide
example : is_destructive "  Git PUSH  " = true := by decide
example : extract_patterns "Bash" "git status --short" =
    [(0, "Bash(git *)"), (1, "Bash(git status *)")] := by decide
example : extract_patterns "Read" "" = [(0, "Read")] := by decide
example : extract_patterns "Bash" "   " = [(0, "Bash")] := by decide
example : extract_patterns "Bash" "gcloud compute instances list --zone us" =
    [(0, "Bash(gcloud *)"), (1, "Bash(gcloud compute *)"),
     (2, "Bash(gcloud compute instances *)"),
     (3, "Bash(gcloud compute instances list *)"),
     (-1, "Bash(gcloud * list *)")] := by decide
example : classify_tool "Bash(git status *)" = "git_safe" := by decide
example : classify_tool "Bash(git push *)" = "git_remote_mutate" := by decide
example : classify_tool "mcp__github__get_issue" = "readonly" := by decide
example : classify_tool "mcp__github__merge_pr" = "external_mutate" := by decide
example : classify_tool "Write" = "file_write" := by decide
example : is_pattern_allowed "Bash(git status *)" ["Bash(git *)"] = true := by decide
example : is_pattern_allowed "Bash(git status *)" ["Bash(npm *)"] = false := by decide
